import Mathlib

/-!
Verification development for the pysamstats repository.

The repository's algorithmic core is the pileup aggregation engine
(`pysamstats/opt.pyx`), whose behaviour is described in the design
specification; the only hand-written source available here is `setup.py`.
Accordingly the engine is modelled from the specification text (each such
definition carries a doc comment beginning `Modelled from the spec:`),
while the build-script definitions are translated directly from
`src/setup.py`.
-/

namespace Pysamstats

/-- Modelled from the spec: the kinds of CIGAR-like alignment operations
recognised by the engine (missing source: `pysamstats/opt.pyx`).
Operation-kind ranges over match/mismatch, insertion, deletion, soft-clip,
hard-clip and reference-skip. -/
inductive OpKind where
  | opMatch
  | opIns
  | opDel
  | opSoftClip
  | opHardClip
  | opRefSkip
deriving DecidableEq

/-- Modelled from the spec: the Aligned-Read View consumed by the engine
(missing source: `pysamstats/opt.pyx`): reference start, ordered
`alignment_ops` as (operation-kind, length) pairs, `query_bases` aligned
with `query_qualities`, `mapping_quality`, and the flag set. -/
structure AlignedRead where
  reference_start : Nat
  alignment_ops : List (OpKind × Nat)
  query_bases : List Char
  query_qualities : List Nat
  mapping_quality : Nat
  is_reverse_strand : Bool
  is_duplicate : Bool
  is_secondary : Bool
  is_supplementary : Bool
  is_unmapped : Bool
deriving DecidableEq

/-- Modelled from the spec: the number of reference positions consumed by a
sequence of alignment ops (match, deletion and reference-skip consume the
reference; insertion and clips do not). -/
def refLength (ops : List (OpKind × Nat)) : Nat :=
  ops.foldl
    (fun acc op =>
      match op.1 with
      | OpKind.opMatch => acc + op.2
      | OpKind.opDel => acc + op.2
      | OpKind.opRefSkip => acc + op.2
      | _ => acc)
    0

/-- Modelled from the spec: `reference_end`, the exclusive end of the
half-open reference interval covered by a read. -/
def reference_end (r : AlignedRead) : Nat :=
  r.reference_start + refLength r.alignment_ops

/-- Modelled from the spec: walking a read's alignment ops to find its
contribution at one reference position. The result is `none` when the read
does not cover the position, `some none` when a deletion or reference-skip
spans it, and `some (some qoff)` when the aligned base at read-local offset
`qoff` covers it. `refPos` is the reference coordinate of the next op and
`qoff` the read-local offset consumed so far. -/
def contribGo : List (OpKind × Nat) → Nat → Nat → Nat → Option (Option Nat)
  | [], _, _, _ => none
  | (k, len) :: rest, refPos, qoff, pos =>
    match k with
    | OpKind.opMatch =>
        if refPos ≤ pos && pos < refPos + len then some (some (qoff + (pos - refPos)))
        else contribGo rest (refPos + len) (qoff + len) pos
    | OpKind.opIns => contribGo rest refPos (qoff + len) pos
    | OpKind.opSoftClip => contribGo rest refPos (qoff + len) pos
    | OpKind.opHardClip => contribGo rest refPos qoff pos
    | OpKind.opDel =>
        if refPos ≤ pos && pos < refPos + len then some none
        else contribGo rest (refPos + len) qoff pos
    | OpKind.opRefSkip =>
        if refPos ≤ pos && pos < refPos + len then some none
        else contribGo rest (refPos + len) qoff pos

/-- Modelled from the spec: the contribution of a read at a reference
position (aligned base offset, or null for a deletion/reference-skip, or
absent when the read does not cover the position). -/
def contribAt (r : AlignedRead) (pos : Nat) : Option (Option Nat) :=
  contribGo r.alignment_ops r.reference_start 0 pos

/-- Modelled from the spec: the Read Inclusion Policy configuration
(missing source: `pysamstats/opt.pyx`): the four exclusion flags and the
two quality thresholds. Thresholds are signed so that out-of-range
(negative) values can be expressed; the comparisons below normalise them
to "exclude nothing". -/
structure Policy where
  exclude_duplicates : Bool
  exclude_secondary : Bool
  exclude_supplementary : Bool
  exclude_unmapped : Bool
  min_mapping_quality : Int
  min_base_quality : Int
deriving DecidableEq

/-- Modelled from the spec: the default policy excludes nothing. -/
def defaultPolicy : Policy :=
  { exclude_duplicates := false
    exclude_secondary := false
    exclude_supplementary := false
    exclude_unmapped := false
    min_mapping_quality := 0
    min_base_quality := 0 }

/-- Modelled from the spec: whether a read is retained by the Read
Inclusion Policy. A pure predicate: each enabled exclusion flag drops the
flagged reads, and reads below `min_mapping_quality` are dropped; a
negative threshold retains every read (normalised to "exclude nothing"). -/
def retainRead (p : Policy) (r : AlignedRead) : Bool :=
  !(p.exclude_duplicates && r.is_duplicate) &&
  !(p.exclude_secondary && r.is_secondary) &&
  !(p.exclude_supplementary && r.is_supplementary) &&
  !(p.exclude_unmapped && r.is_unmapped) &&
  decide (p.min_mapping_quality ≤ (r.mapping_quality : Int))

/-- Modelled from the spec: whether an individual base of quality `q` is
retained for quality/composition accumulation under `min_base_quality`;
a negative threshold retains every base. -/
def retainBase (p : Policy) (q : Nat) : Bool :=
  decide (p.min_base_quality ≤ (q : Int))

/-- Modelled from the spec: the Pileup Column at one reference position —
the retained reads covering the position paired with their contribution
(read-local offset, or null for a deletion/reference-skip). -/
def columnEntries (p : Policy) (reads : List AlignedRead) (pos : Nat) :
    List (AlignedRead × Option Nat) :=
  (reads.filter (retainRead p)).filterMap
    (fun r => (contribAt r pos).map (fun c => (r, c)))

/-- Modelled from the spec: running sum of a stream of quality values, as
a rational. -/
def ratSum : List Nat → ℚ
  | [] => 0
  | n :: rest => (n : ℚ) + ratSum rest

/-- Modelled from the spec: arithmetic mean of a list of quality values,
as an explicit "no value" marker (`none`) when the list is empty, so that
"no data" is distinguished from "all-zero quality". -/
def meanOpt : List Nat → Option ℚ
  | [] => none
  | q :: qs => some (ratSum (q :: qs) / ((q :: qs).length : ℚ))

/-- Modelled from the spec: the base-quality values accumulated at a
column — one per retained aligned base whose quality passes
`min_base_quality` (deletion contributions supply no base). -/
def baseQuals (p : Policy) (reads : List AlignedRead) (pos : Nat) : List Nat :=
  (columnEntries p reads pos).filterMap
    (fun e =>
      match e.2 with
      | some qoff =>
          let q := e.1.query_qualities.getD qoff 0
          if retainBase p q then some q else none
      | none => none)

/-- Modelled from the spec: the mapping-quality values accumulated at a
column — one per retained read in the column. -/
def mapQuals (p : Policy) (reads : List AlignedRead) (pos : Nat) : List Nat :=
  (columnEntries p reads pos).map (fun e => e.1.mapping_quality)

/-- Modelled from the spec: whether a column entry carries a retained
aligned base equal (case-insensitively) to the reference base `rb`. -/
def entryMatches (p : Policy) (rb : Char) (e : AlignedRead × Option Nat) : Bool :=
  match e.2 with
  | some qoff =>
      retainBase p (e.1.query_qualities.getD qoff 0) &&
      ((e.1.query_bases.getD qoff 'N').toUpper == rb.toUpper)
  | none => false

/-- Modelled from the spec: whether a column entry carries a retained
aligned base different (case-insensitively) from the reference base. -/
def entryMismatches (p : Policy) (rb : Char) (e : AlignedRead × Option Nat) : Bool :=
  match e.2 with
  | some qoff =>
      retainBase p (e.1.query_qualities.getD qoff 0) &&
      !((e.1.query_bases.getD qoff 'N').toUpper == rb.toUpper)
  | none => false

/-- Modelled from the spec: match count relative to the supplied reference
base; an unknown reference base makes the count an explicit null, never
zero. -/
def matchesAt (p : Policy) (ref : Nat → Option Char) (reads : List AlignedRead)
    (pos : Nat) : Option Nat :=
  match ref pos with
  | none => none
  | some rb => some ((columnEntries p reads pos).countP (entryMatches p rb))

/-- Modelled from the spec: mismatch count relative to the supplied
reference base; null when the reference base is unknown. -/
def mismatchesAt (p : Policy) (ref : Nat → Option Char) (reads : List AlignedRead)
    (pos : Nat) : Option Nat :=
  match ref pos with
  | none => none
  | some rb => some ((columnEntries p reads pos).countP (entryMismatches p rb))

/-- Modelled from the spec: the Summary Record fields needed here —
position, `reads_all` (depth after filtering), base-quality and
mapping-quality means (explicit "no value" when depth is zero), and
match/mismatch counts (null when the reference base is unknown). -/
structure SummaryRecord where
  pos : Nat
  reads_all : Nat
  baseq_mean : Option ℚ
  mapq_mean : Option ℚ
  «matches» : Option Nat
  mismatches : Option Nat
deriving DecidableEq

/-- Modelled from the spec: the Statistic Accumulator step — reduce the
Pileup Column at `pos` (and the reference base, if available) into one
Summary Record. -/
def recordAt (p : Policy) (ref : Nat → Option Char) (reads : List AlignedRead)
    (pos : Nat) : SummaryRecord :=
  { pos := pos
    reads_all := (columnEntries p reads pos).length
    baseq_mean := meanOpt (baseQuals p reads pos)
    mapq_mean := meanOpt (mapQuals p reads pos)
    «matches» := matchesAt p ref reads pos
    mismatches := mismatchesAt p ref reads pos }

/-- Modelled from the spec: the error taxonomy relevant to the Scanner —
Invalid-Range (malformed or empty requested region) and Input-Ordering
(read source violates the sorted-by-start precondition). -/
inductive ScanError where
  | invalidRange
  | inputOrdering
deriving DecidableEq

/-- Modelled from the spec: the index of the first read whose
`reference_start` is smaller than its predecessor's, scanning the stream
of start coordinates lazily; `prev` is the predecessor's start and `idx`
the index of the next element. -/
def firstDisorderGo : Nat → Nat → List Nat → Option Nat
  | _, _, [] => none
  | idx, prev, s :: rest =>
      if s < prev then some idx else firstDisorderGo (idx + 1) s rest

/-- Modelled from the spec: the position of the first out-of-order element
in a stream of reference-start coordinates (`none` when the stream
satisfies the sorted-by-start precondition). -/
def firstDisorder : List Nat → Option Nat
  | [] => none
  | s :: rest => firstDisorderGo 1 s rest

/-- Modelled from the spec: the scan position reached after processing a
stream of reads — the largest reference start seen so far (for a sorted
stream, the last read's start); columns strictly before it have been
flushed and emitted. -/
def cutAt (reads : List AlignedRead) (i : Nat) : Nat :=
  ((reads.map (fun r => r.reference_start)).take i).foldl max 0

/-- Modelled from the spec: emission of one Summary Record per reference
position of the half-open window `[s, e)`, in increasing position order
("all positions" mode: empty columns are synthesised where depth is
zero). -/
def emit (p : Policy) (ref : Nat → Option Char) (reads : List AlignedRead)
    (s e : Nat) : List SummaryRecord :=
  (List.range' s (e - s)).map (recordAt p ref reads)

/-- Modelled from the spec: the round-trip test read — a single read
spanning reference positions 100 to 104 with all-match alignment ops,
uniform base quality 30 and mapping quality `m`. -/
def readC3 (m : Nat) : AlignedRead :=
  { reference_start := 100
    alignment_ops := [(OpKind.opMatch, 5)]
    query_bases := ['A', 'C', 'G', 'T', 'A']
    query_qualities := [30, 30, 30, 30, 30]
    mapping_quality := m
    is_reverse_strand := false
    is_duplicate := false
    is_secondary := false
    is_supplementary := false
    is_unmapped := false }

/-- Modelled from the spec: a Reference Sequence Provider for the
round-trip test, agreeing with the read's bases at positions 100 to 103
and differing at 104. -/
def refC3 : Nat → Option Char := fun pos =>
  if pos = 100 then some 'A'
  else if pos = 101 then some 'C'
  else if pos = 102 then some 'G'
  else if pos = 103 then some 'T'
  else if pos = 104 then some 'C'
  else none

/-- A concrete two-base read starting at position 3, used as a test
fixture. -/
def sampleRead : AlignedRead :=
  { reference_start := 3
    alignment_ops := [(OpKind.opMatch, 2)]
    query_bases := ['A', 'A']
    query_qualities := [10, 10]
    mapping_quality := 7
    is_reverse_strand := false
    is_duplicate := false
    is_secondary := false
    is_supplementary := false
    is_unmapped := false }

/-- The fixture read shifted to start at position 5. -/
def sampleRead2 : AlignedRead :=
  { sampleRead with reference_start := 5 }

/-- The fixture read shifted to start at position 4. -/
def sampleRead3 : AlignedRead :=
  { sampleRead with reference_start := 4 }

/-- A fixture read sharing `sampleRead`'s start but with different bases,
qualities and mapping quality, for the tie-reordering test. -/
def tieRead : AlignedRead :=
  { sampleRead with
    query_bases := ['C', 'C']
    query_qualities := [20, 20]
    mapping_quality := 9 }

/-- Modelled from the spec: the Position/Window Scanner in per-base "all
positions" mode (missing source: `pysamstats/opt.pyx`). The requested
region `(start, stop)` is validated first (`start ≥ 0`, `stop > start`,
else Invalid-Range with no output). A sorted stream yields one record per
position of the region. An out-of-order stream aborts at the first
out-of-order read with an Input-Ordering error; the records already
emitted — those for positions before the scan position reached by the
processed reads — stand as partial output. -/
def scan (p : Policy) (ref : Nat → Option Char) (start stop : Int)
    (reads : List AlignedRead) : List SummaryRecord × Option ScanError :=
  if start < 0 ∨ stop ≤ start then ([], some ScanError.invalidRange)
  else
    match firstDisorder (reads.map (fun r => r.reference_start)) with
    | none => (emit p ref reads start.toNat stop.toNat, none)
    | some i =>
        (emit p ref (reads.take i) start.toNat (min stop.toNat (cutAt reads i)),
         some ScanError.inputOrdering)

end Pysamstats

namespace SetupPy

/-- The two extension-building routes of `setup.py`: `cythonize` on
`pysamstats/opt.pyx`, or a plain `Extension` on the pre-compiled
`pysamstats/opt.c`. -/
inductive BuildChoice where
  | cython
  | precompiledC
deriving DecidableEq

/-- The `extensions` selection of `setup.py` (lines 57-85): prefer Cython
when both Cython and pysam import, otherwise fall back to the
pre-compiled C file when it exists, otherwise raise (`none` models the
raised Exception, so `setup()` is never reached). -/
def extensions (haveCython pysamAvailable hasPrecompiledC : Bool) :
    Option BuildChoice :=
  if haveCython && pysamAvailable then some BuildChoice.cython
  else if hasPrecompiledC then some BuildChoice.precompiledC
  else none

/-- Python `str.startswith`: whether the second list of characters begins
with the first. -/
def startswith : List Char → List Char → Bool
  | [], _ => true
  | _ :: _, [] => false
  | p :: ps, c :: cs => (c = p) && startswith ps cs

/-- The `line.startswith('__version__')` test of `get_version`. -/
def startsWithVersion (line : String) : Bool :=
  startswith ("__version__".data) line.data

/-- Everything after the first `=` of a line (Python
`line.partition('=')[2]`: empty when the line has no `=`). -/
def afterFirstEq : List Char → List Char
  | [] => []
  | c :: rest => if c = '=' then rest else afterFirstEq rest

/-- Leading-whitespace strip (Python `str.lstrip()`). -/
def lstrip : List Char → List Char
  | [] => []
  | c :: rest => if c.isWhitespace then lstrip rest else c :: rest

/-- The text `setup.py`'s `get_version` hands to `ast.literal_eval`: the
part of the line after the first `=`, leading whitespace stripped. -/
def versionText (line : String) : String :=
  String.mk (lstrip (afterFirstEq line.data))

/-- `get_version` of `setup.py` (lines 19-26), with the file given as its
list of lines and `ast.literal_eval` (Python standard library, external
to the repository) abstracted as the identity on the extracted text:
return on the first line starting with `__version__`, else fall through
to `raise ValueError` (modelled as `Except.error ()`). -/
def get_version : List String → Except Unit String
  | [] => Except.error ()
  | line :: rest =>
      if startsWithVersion line then Except.ok (versionText line)
      else get_version rest

/-- `distutils.version.LooseVersion` comparison, restricted to the numeric
dotted versions compared in `setup.py`: lexicographic order on the numeric
components, a shorter version being smaller when it is a proper initial
segment. -/
def versionLt : List Nat → List Nat → Bool
  | [], [] => false
  | [], _ :: _ => true
  | _ :: _, [] => false
  | a :: as, b :: bs => if a < b then true else if b < a then false else versionLt as bs

/-- The pysam version `setup.py` recommends (`required_pysam_version =
'0.15'`). -/
def requiredPysamVersion : List Nat := [0, 15]

/-- The warning `setup.py` prints to stderr for an old pysam. -/
def pysamWarning : String := "Warning: pysam version >= 0.15 is recommended"

/-- The Python exceptions relevant to the import block of `setup.py`. -/
inductive PyExn where
  | importError
  | valueError
deriving DecidableEq

/-- The `import pysam` statement: the environment either provides a pysam
module (its version) or the import raises ImportError. -/
def importPysam (env : Option (List Nat)) : Except PyExn (List Nat) :=
  match env with
  | some v => Except.ok v
  | none => Except.error PyExn.importError

/-- The import block of `setup.py` (lines 6-16): try to import pysam; on
success set `PYSAM_AVAILABLE = True` and print a warning to stderr when
the version is below 0.15; an ImportError is caught and sets
`PYSAM_AVAILABLE = False`. The result is `(PYSAM_AVAILABLE, captured
stderr lines)`; an uncaught exception would be `Except.error`. -/
def pysamInit (env : Option (List Nat)) : Except PyExn (Bool × List String) :=
  match importPysam env with
  | Except.ok v =>
      Except.ok (true, if versionLt v requiredPysamVersion then [pysamWarning] else [])
  | Except.error PyExn.importError => Except.ok (false, [])
  | Except.error e => Except.error e

end SetupPy

namespace Pysamstats

theorem emit_map_pos (p : Policy) (ref : Nat → Option Char) (reads : List AlignedRead)
    (s e : Nat) : (emit p ref reads s e).map SummaryRecord.pos = List.range' s (e - s) := by
  unfold emit
  rw [List.map_map]
  exact List.map_id _

theorem chain'_succ_range' (s n : Nat) :
    List.Chain' (fun a b => b = a + 1) (List.range' s n) := by
  induction n generalizing s with
  | zero => simp
  | succ n ih =>
    cases n with
    | zero => simp
    | succ m =>
      rw [List.range'_succ, List.range'_succ, List.chain'_cons]
      refine ⟨rfl, ?_⟩
      rw [← List.range'_succ]
      exact ih (s + 1)

theorem scan_out_mem {p : Policy} {ref : Nat → Option Char} {start stop : Int}
    {reads : List AlignedRead} {rec : SummaryRecord}
    (h : rec ∈ (scan p ref start stop reads).1) :
    ∃ (sub : List AlignedRead) (x : Nat),
      sub.Sublist reads ∧ rec = recordAt p ref sub x ∧ rec.pos = x := by
  by_cases hv : start < 0 ∨ stop ≤ start
  · simp [scan, hv] at h
  · cases hfd : firstDisorder (reads.map fun r => r.reference_start) with
    | none =>
      simp only [scan, if_neg hv, hfd, emit] at h
      rcases List.mem_map.mp h with ⟨x, _, hrec⟩
      exact ⟨reads, x, List.Sublist.refl _, hrec.symm, by rw [← hrec]; rfl⟩
    | some i =>
      simp only [scan, if_neg hv, hfd, emit] at h
      rcases List.mem_map.mp h with ⟨x, _, hrec⟩
      exact ⟨reads.take i, x, List.take_sublist _ _, hrec.symm, by rw [← hrec]; rfl⟩

/-- C1: at every position of a scan where zero reads are retained after
filtering, the emitted Summary Record has `reads_all = 0` and its
base-quality and mapping-quality means are the explicit no-value marker
`none`, never the number zero. -/
theorem c1_zero_depth_no_value (p : Policy) (ref : Nat → Option Char)
    (start stop : Int) (reads : List AlignedRead) (rec : SummaryRecord)
    (hmem : rec ∈ (scan p ref start stop reads).1)
    (hzero : columnEntries p reads rec.pos = []) :
    rec.reads_all = 0 ∧ rec.baseq_mean = none ∧ rec.mapq_mean = none := by
  rcases scan_out_mem hmem with ⟨sub, x, hsub, hrec, hpos⟩
  rw [hpos] at hzero
  have hcol : columnEntries p sub x = [] := by
    have hs : (columnEntries p sub x).Sublist (columnEntries p reads x) :=
      List.Sublist.filterMap _ (List.Sublist.filter _ hsub)
    rw [hzero] at hs
    exact List.sublist_nil.mp hs
  rw [hrec]
  simp [recordAt, baseQuals, mapQuals, meanOpt, hcol]

theorem c1_zero_depth_no_value_witness :
    (recordAt defaultPolicy (fun _ => none) [] 0).reads_all = 0 ∧
    (recordAt defaultPolicy (fun _ => none) [] 0).baseq_mean = none ∧
    (recordAt defaultPolicy (fun _ => none) [] 0).mapq_mean = none :=
  c1_zero_depth_no_value defaultPolicy (fun _ => none) 0 1 []
    (recordAt defaultPolicy (fun _ => none) [] 0) (by decide) (by decide)

/-- C2: every emitted record's position lies within the requested region
(start inclusive, stop exclusive), positions are strictly increasing with
no duplicates, and in "all positions" mode consecutive emitted positions
have no gaps. -/
theorem c2_positions_ordered (p : Policy) (ref : Nat → Option Char)
    (start stop : Int) (reads : List AlignedRead) :
    (∀ rec ∈ (scan p ref start stop reads).1,
        start ≤ (rec.pos : Int) ∧ (rec.pos : Int) < stop) ∧
    List.Chain' (fun a b => a < b)
      ((scan p ref start stop reads).1.map SummaryRecord.pos) ∧
    List.Chain' (fun a b => b = a + 1)
      ((scan p ref start stop reads).1.map SummaryRecord.pos) := by
  by_cases hv : start < 0 ∨ stop ≤ start
  · simp [scan, hv]
  · cases hfd : firstDisorder (reads.map fun r => r.reference_start) with
    | none =>
      refine ⟨?_, ?_, ?_⟩
      · intro rec hmem
        have hx := List.mem_map_of_mem SummaryRecord.pos hmem
        simp only [scan, if_neg hv, hfd] at hx
        rw [emit_map_pos] at hx
        have hb := List.mem_range'_1.mp hx
        omega
      · simp only [scan, if_neg hv, hfd]
        rw [emit_map_pos]
        exact (chain'_succ_range' _ _).imp (fun a b h => by omega)
      · simp only [scan, if_neg hv, hfd]
        rw [emit_map_pos]
        exact chain'_succ_range' _ _
    | some i =>
      refine ⟨?_, ?_, ?_⟩
      · intro rec hmem
        have hx := List.mem_map_of_mem SummaryRecord.pos hmem
        simp only [scan, if_neg hv, hfd] at hx
        rw [emit_map_pos] at hx
        have hb := List.mem_range'_1.mp hx
        have hmin : min stop.toNat (cutAt reads i) ≤ stop.toNat := Nat.min_le_left _ _
        omega
      · simp only [scan, if_neg hv, hfd]
        rw [emit_map_pos]
        exact (chain'_succ_range' _ _).imp (fun a b h => by omega)
      · simp only [scan, if_neg hv, hfd]
        rw [emit_map_pos]
        exact chain'_succ_range' _ _

theorem c2_positions_ordered_witness :
    (∀ rec ∈ (scan defaultPolicy (fun _ => none) 0 3 []).1,
        (0 : Int) ≤ (rec.pos : Int) ∧ (rec.pos : Int) < 3) ∧
    List.Chain' (fun a b => a < b)
      ((scan defaultPolicy (fun _ => none) 0 3 []).1.map SummaryRecord.pos) ∧
    List.Chain' (fun a b => b = a + 1)
      ((scan defaultPolicy (fun _ => none) 0 3 []).1.map SummaryRecord.pos) :=
  c2_positions_ordered defaultPolicy (fun _ => none) 0 3 []

theorem firstDisorderGo_le {l : List Nat} :
    ∀ {idx prev i : Nat}, firstDisorderGo idx prev l = some i → idx ≤ i := by
  induction l with
  | nil => intro idx prev i h; simp [firstDisorderGo] at h
  | cons s rest ih =>
    intro idx prev i h
    unfold firstDisorderGo at h
    split at h
    · exact le_of_eq (Option.some.inj h)
    · exact Nat.le_of_succ_le (ih h)

theorem firstDisorderGo_take {l : List Nat} :
    ∀ {idx prev i : Nat}, firstDisorderGo idx prev l = some i →
      firstDisorderGo idx prev (l.take (i - idx)) = none := by
  induction l with
  | nil => intro idx prev i h; simp [firstDisorderGo] at h
  | cons s rest ih =>
    intro idx prev i h
    unfold firstDisorderGo at h
    split at h
    · have hi : idx = i := Option.some.inj h
      subst hi
      simp [firstDisorderGo]
    · rename_i hlt
      have hle : idx + 1 ≤ i := firstDisorderGo_le h
      have hsub : i - idx = (i - (idx + 1)) + 1 := by omega
      rw [hsub, List.take_succ_cons]
      unfold firstDisorderGo
      rw [if_neg hlt]
      exact ih h

theorem firstDisorder_take {l : List Nat} {i : Nat} (h : firstDisorder l = some i) :
    firstDisorder (l.take i) = none := by
  cases l with
  | nil => simp [firstDisorder] at h
  | cons s rest =>
    unfold firstDisorder at h
    have h1 : 1 ≤ i := firstDisorderGo_le h
    have hi : i = (i - 1) + 1 := by omega
    rw [hi, List.take_succ_cons]
    unfold firstDisorder
    exact firstDisorderGo_take h

/-- C4: for every requested region with `start < 0` or `stop ≤ start`, the
Scanner raises Invalid-Range immediately and emits no record. -/
theorem c4_invalid_range (p : Policy) (ref : Nat → Option Char)
    (start stop : Int) (reads : List AlignedRead)
    (h : start < 0 ∨ stop ≤ start) :
    scan p ref start stop reads = ([], some ScanError.invalidRange) := by
  simp [scan, h]

theorem c4_invalid_range_witness :
    scan defaultPolicy (fun _ => none) (-1) 1 [] = ([], some ScanError.invalidRange) :=
  c4_invalid_range defaultPolicy (fun _ => none) (-1) 1 [] (by decide)

/-- C5: on a valid region, the Scanner raises Input-Ordering exactly when
the stream has an out-of-order read, and the records already emitted are
exactly the output of scanning the ordered part of the stream over the
region truncated at the scan position reached — valid partial output,
unchanged by the error. -/
theorem c5_input_ordering (p : Policy) (ref : Nat → Option Char)
    (start stop : Int) (reads : List AlignedRead)
    (hv : ¬(start < 0 ∨ stop ≤ start)) :
    ((scan p ref start stop reads).2 = some ScanError.inputOrdering ↔
      firstDisorder (reads.map fun r => r.reference_start) ≠ none) ∧
    (∀ i, firstDisorder (reads.map fun r => r.reference_start) = some i →
      (scan p ref start stop reads).1 =
        (scan p ref start (min stop (cutAt reads i : Int)) (reads.take i)).1) := by
  constructor
  · cases hfd : firstDisorder (reads.map fun r => r.reference_start) with
    | none => simp [scan, hv, hfd]
    | some i => simp [scan, hv, hfd]
  · intro i hfd
    have htake : firstDisorder ((reads.take i).map fun r => r.reference_start) = none := by
      rw [List.map_take]
      exact firstDisorder_take hfd
    by_cases hv2 : start < 0 ∨ min stop (cutAt reads i : Int) ≤ start
    · have hcut : min stop.toNat (cutAt reads i) - start.toNat = 0 := by omega
      simp only [scan, if_neg hv, hfd, if_pos hv2, emit, hcut]
      simp
    · have hmin : (min stop (cutAt reads i : Int)).toNat = min stop.toNat (cutAt reads i) := by
        omega
      simp only [scan, if_neg hv, hfd, if_neg hv2, htake, hmin]

theorem c5_input_ordering_witness :
    ((scan defaultPolicy (fun _ => none) 0 10 [sampleRead, sampleRead2, sampleRead3]).2 =
        some ScanError.inputOrdering ↔
      firstDisorder ([sampleRead, sampleRead2, sampleRead3].map fun r => r.reference_start) ≠
        none) ∧
    (∀ i, firstDisorder ([sampleRead, sampleRead2, sampleRead3].map fun r =>
        r.reference_start) = some i →
      (scan defaultPolicy (fun _ => none) 0 10 [sampleRead, sampleRead2, sampleRead3]).1 =
        (scan defaultPolicy (fun _ => none) 0
          (min 10 (cutAt [sampleRead, sampleRead2, sampleRead3] i : Int))
          ([sampleRead, sampleRead2, sampleRead3].take i)).1) :=
  c5_input_ordering defaultPolicy (fun _ => none) 0 10
    [sampleRead, sampleRead2, sampleRead3] (by decide)

theorem ratSum_perm {l₁ l₂ : List Nat} (h : l₁.Perm l₂) : ratSum l₁ = ratSum l₂ := by
  induction h with
  | nil => rfl
  | cons x _ ih => simp [ratSum, ih]
  | swap x y l => simp [ratSum]; ring
  | trans _ _ ih₁ ih₂ => exact ih₁.trans ih₂

theorem meanOpt_perm {l₁ l₂ : List Nat} (h : l₁.Perm l₂) : meanOpt l₁ = meanOpt l₂ := by
  cases l₁ with
  | nil => rw [List.nil_perm.mp h]
  | cons a as =>
    cases l₂ with
    | nil => exact absurd (List.perm_nil.mp h) (by simp)
    | cons b bs =>
      show some (ratSum (a :: as) / ((a :: as).length : ℚ)) =
        some (ratSum (b :: bs) / ((b :: bs).length : ℚ))
      rw [ratSum_perm h, h.length_eq]

theorem columnEntries_perm (p : Policy) (pos : Nat) {reads₁ reads₂ : List AlignedRead}
    (h : reads₁.Perm reads₂) :
    (columnEntries p reads₁ pos).Perm (columnEntries p reads₂ pos) :=
  List.Perm.filterMap _ (List.Perm.filter _ h)

theorem recordAt_perm (p : Policy) (ref : Nat → Option Char) (pos : Nat)
    {reads₁ reads₂ : List AlignedRead} (h : reads₁.Perm reads₂) :
    recordAt p ref reads₁ pos = recordAt p ref reads₂ pos := by
  have hcol := columnEntries_perm p pos h
  unfold recordAt
  simp only [SummaryRecord.mk.injEq, true_and]
  refine ⟨hcol.length_eq, ?_, ?_, ?_, ?_⟩
  · exact meanOpt_perm (List.Perm.filterMap _ hcol)
  · exact meanOpt_perm (List.Perm.map _ hcol)
  · unfold matchesAt
    cases ref pos with
    | none => rfl
    | some rb => exact congrArg some (hcol.countP_eq _)
  · unfold mismatchesAt
    cases ref pos with
    | none => rfl
    | some rb => exact congrArg some (hcol.countP_eq _)

/-- C6: permuting a read stream while keeping the sequence of
reference-start coordinates fixed (so only reads sharing a start are
reordered), on a stream satisfying the sorted-by-start contract of the
Read Source, leaves the scan output unchanged. -/
theorem c6_tie_reorder_invariant (p : Policy) (ref : Nat → Option Char)
    (start stop : Int) {reads₁ reads₂ : List AlignedRead}
    (hperm : reads₁.Perm reads₂)
    (hstarts : (reads₁.map fun r => r.reference_start) =
      (reads₂.map fun r => r.reference_start))
    (hsorted : firstDisorder (reads₁.map fun r => r.reference_start) = none) :
    scan p ref start stop reads₁ = scan p ref start stop reads₂ := by
  by_cases hv : start < 0 ∨ stop ≤ start
  · simp [scan, hv]
  · have hsorted₂ : firstDisorder (reads₂.map fun r => r.reference_start) = none :=
      hstarts ▸ hsorted
    simp only [scan, if_neg hv, hsorted, hsorted₂]
    have hemit : emit p ref reads₁ start.toNat stop.toNat =
        emit p ref reads₂ start.toNat stop.toNat := by
      unfold emit
      exact List.map_congr_left (fun x _ => recordAt_perm p ref x hperm)
    rw [hemit]

theorem c6_tie_reorder_invariant_witness :
    scan defaultPolicy (fun _ => none) 0 6 [sampleRead, tieRead] =
      scan defaultPolicy (fun _ => none) 0 6 [tieRead, sampleRead] :=
  c6_tie_reorder_invariant defaultPolicy (fun _ => none) 0 6
    (List.Perm.swap tieRead sampleRead []) (by decide) (by decide)

/-- C7: the Read Inclusion Policy is a pure total predicate; with
out-of-range (negative) thresholds it is normalised to exclude nothing,
retaining every read and every base. -/
theorem c7_policy_normalized (mq bq : Int) (hmq : mq < 0) (hbq : bq < 0) :
    (∀ r : AlignedRead, retainRead (Policy.mk false false false false mq bq) r = true) ∧
    (∀ q : Nat, retainBase (Policy.mk false false false false mq bq) q = true) := by
  constructor
  · intro r
    simp only [retainRead, Bool.false_and, Bool.not_false, Bool.true_and, decide_eq_true_eq]
    omega
  · intro q
    simp only [retainBase, decide_eq_true_eq]
    omega

theorem c7_policy_normalized_witness :
    retainRead (Policy.mk false false false false (-1) (-1)) sampleRead = true ∧
    retainBase (Policy.mk false false false false (-1) (-1)) 0 = true :=
  ⟨(c7_policy_normalized (-1) (-1) (by decide) (by decide)).1 sampleRead,
   (c7_policy_normalized (-1) (-1) (by decide) (by decide)).2 0⟩

theorem retainRead_readC3 (m : Nat) : retainRead defaultPolicy (readC3 m) = true := by
  simp [retainRead, readC3, defaultPolicy, Int.natCast_nonneg]

theorem columnEntries_readC3 (m : Nat) (pos : Nat) (hp : 100 ≤ pos) (hp2 : pos < 105) :
    columnEntries defaultPolicy [readC3 m] pos = [(readC3 m, some (pos - 100))] := by
  simp [columnEntries, retainRead, defaultPolicy, Int.natCast_nonneg, contribAt, contribGo,
    readC3, hp, hp2]

theorem recordAt_readC3_100 (m : Nat) :
    recordAt defaultPolicy refC3 [readC3 m] 100 =
      ⟨100, 1, some 30, some (m : ℚ), some 1, some 0⟩ := by
  have hc := columnEntries_readC3 m 100 (by omega) (by omega)
  norm_num at hc
  simp only [recordAt, baseQuals, mapQuals, matchesAt, mismatchesAt, hc]
  simp [meanOpt, ratSum, entryMatches, entryMismatches, retainBase, defaultPolicy, readC3,
    refC3, SummaryRecord.mk.injEq]

theorem recordAt_readC3_101 (m : Nat) :
    recordAt defaultPolicy refC3 [readC3 m] 101 =
      ⟨101, 1, some 30, some (m : ℚ), some 1, some 0⟩ := by
  have hc := columnEntries_readC3 m 101 (by omega) (by omega)
  norm_num at hc
  simp only [recordAt, baseQuals, mapQuals, matchesAt, mismatchesAt, hc]
  simp [meanOpt, ratSum, entryMatches, entryMismatches, retainBase, defaultPolicy, readC3,
    refC3, SummaryRecord.mk.injEq]

theorem recordAt_readC3_102 (m : Nat) :
    recordAt defaultPolicy refC3 [readC3 m] 102 =
      ⟨102, 1, some 30, some (m : ℚ), some 1, some 0⟩ := by
  have hc := columnEntries_readC3 m 102 (by omega) (by omega)
  norm_num at hc
  simp only [recordAt, baseQuals, mapQuals, matchesAt, mismatchesAt, hc]
  simp [meanOpt, ratSum, entryMatches, entryMismatches, retainBase, defaultPolicy, readC3,
    refC3, SummaryRecord.mk.injEq]

theorem recordAt_readC3_103 (m : Nat) :
    recordAt defaultPolicy refC3 [readC3 m] 103 =
      ⟨103, 1, some 30, some (m : ℚ), some 1, some 0⟩ := by
  have hc := columnEntries_readC3 m 103 (by omega) (by omega)
  norm_num at hc
  simp only [recordAt, baseQuals, mapQuals, matchesAt, mismatchesAt, hc]
  simp [meanOpt, ratSum, entryMatches, entryMismatches, retainBase, defaultPolicy, readC3,
    refC3, SummaryRecord.mk.injEq]

theorem recordAt_readC3_104 (m : Nat) :
    recordAt defaultPolicy refC3 [readC3 m] 104 =
      ⟨104, 1, some 30, some (m : ℚ), some 0, some 1⟩ := by
  have hc := columnEntries_readC3 m 104 (by omega) (by omega)
  norm_num at hc
  simp only [recordAt, baseQuals, mapQuals, matchesAt, mismatchesAt, hc]
  simp [meanOpt, ratSum, entryMatches, entryMismatches, retainBase, defaultPolicy, readC3,
    refC3, SummaryRecord.mk.injEq]

/-- C3: a single read spanning positions 100 to 104 whose ops are all
matches, with uniform base quality 30 and mapping quality `m`, yields
exactly five records, each with `reads_all = 1`, base-quality mean 30,
mapping-quality mean equal to the read's mapping quality, and
`matches = 1` when the reference base equals the read base at that
position, else `mismatches = 1`. -/
theorem c3_single_read_round_trip (m : Nat) :
    scan defaultPolicy refC3 100 105 [readC3 m] =
      ([⟨100, 1, some 30, some (m : ℚ), some 1, some 0⟩,
        ⟨101, 1, some 30, some (m : ℚ), some 1, some 0⟩,
        ⟨102, 1, some 30, some (m : ℚ), some 1, some 0⟩,
        ⟨103, 1, some 30, some (m : ℚ), some 1, some 0⟩,
        ⟨104, 1, some 30, some (m : ℚ), some 0, some 1⟩], none) := by
  show (List.map (recordAt defaultPolicy refC3 [readC3 m]) [100, 101, 102, 103, 104],
    none) = _
  simp only [List.map_cons, List.map_nil, recordAt_readC3_100, recordAt_readC3_101,
    recordAt_readC3_102, recordAt_readC3_103, recordAt_readC3_104]

end Pysamstats

namespace SetupPy

/-- C8: the build script selects Cython exactly when Cython and pysam are
both importable, falls back to the pre-compiled C source exactly when
that preference fails and `pysamstats/opt.c` exists, and otherwise raises
before `setup()`; `setup()` is reached iff one of the two build paths is
available. -/
theorem c8_extension_selection (h p c : Bool) :
    (extensions h p c = some BuildChoice.cython ↔ (h && p) = true) ∧
    (extensions h p c = some BuildChoice.precompiledC ↔ ((h && p) = false ∧ c = true)) ∧
    ((extensions h p c).isSome = true ↔ ((h && p) = true ∨ c = true)) := by
  cases h <;> cases p <;> cases c <;> decide

/-- C9: `get_version` returns the (literal-evaluated) text after the first
`=` of the first line starting with `__version__`, and raises ValueError
exactly when no line of the file starts with `__version__`. -/
theorem c9_get_version :
    (∀ (pre : List String) (line : String) (post : List String),
      (∀ l ∈ pre, startsWithVersion l = false) →
      startsWithVersion line = true →
      get_version (pre ++ line :: post) = Except.ok (versionText line)) ∧
    (∀ lines : List String,
      (∀ l ∈ lines, startsWithVersion l = false) →
      get_version lines = Except.error ()) := by
  constructor
  · intro pre line post hpre hline
    induction pre with
    | nil => simp [get_version, hline]
    | cons a rest ih =>
      have ha : startsWithVersion a = false := hpre a (by simp)
      rw [List.cons_append]
      unfold get_version
      rw [ha]
      simp only [Bool.false_eq_true, if_false]
      exact ih (fun l hl => hpre l (by simp [hl]))
  · intro lines hlines
    induction lines with
    | nil => rfl
    | cons a rest ih =>
      have ha : startsWithVersion a = false := hlines a (by simp)
      unfold get_version
      rw [ha]
      simp only [Bool.false_eq_true, if_false]
      exact ih (fun l hl => hlines l (by simp [hl]))

theorem c9_get_version_witness :
    get_version ["import os", "__version__ = \"1.0\""] = Except.ok ("\"1.0\"") ∧
    get_version ["import os"] = Except.error () :=
  ⟨c9_get_version.1 ["import os"] ("__version__ = \"1.0\"") [] (by decide) (by decide),
   c9_get_version.2 ["import os"] (by decide)⟩

/-- C10: importing pysam never aborts the build script: an ImportError is
caught, setting `PYSAM_AVAILABLE` to false, and a pysam older than 0.15
only yields a stderr warning, never an exception. -/
theorem c10_pysam_import_never_aborts :
    (∀ env : Option (List Nat), ∃ r, pysamInit env = Except.ok r) ∧
    pysamInit none = Except.ok (false, []) ∧
    (∀ v : List Nat, versionLt v requiredPysamVersion = true →
      pysamInit (some v) = Except.ok (true, [pysamWarning])) := by
  refine ⟨?_, rfl, ?_⟩
  · intro env
    cases env with
    | none => exact ⟨(false, []), rfl⟩
    | some v => exact ⟨(true, if versionLt v requiredPysamVersion then [pysamWarning]
        else []), rfl⟩
  · intro v hv
    simp [pysamInit, importPysam, hv]

theorem c10_pysam_import_never_aborts_witness :
    pysamInit (some [0, 14]) = Except.ok (true, [pysamWarning]) :=
  c10_pysam_import_never_aborts.2.2 [0, 14] (by decide)

end SetupPy
